import Mathlib

/-!
Shallow embedding of the ffmpeg-napi-interface audio decoder
(`src/src/decoder.cpp`, class `FFmpegDecoder`).

The FFmpeg libraries themselves (libavformat / libavcodec / libswresample)
are external collaborators; they are modelled as explicit state:
* the packet source (`av_read_frame`) is a list of `ReadItem`s, exhausted
  when the list is empty (that is when `av_read_frame` reports `AVERROR_EOF`);
* the codec (`avcodec_send_packet` / `avcodec_receive_frame`) is a queue of
  ready frames plus a queue of delayed frames that are only released once the
  flush (null) packet has been sent, plus a `flushed` bit and a `broken` bit
  for the generic-error return of `avcodec_receive_frame`;
* the resampler (`swr_convert`) is a delay line: it keeps up to `holdTarget`
  samples back when fed input, releases them when flushed with null input,
  and is capped by the caller-supplied output capacity.

The decoder member functions (`decodeNextFrame`, `read`, `seek`, `close`,
`open`, `parseTrackNumber`, the cover-art scan of `getMetadata` /
`getFileMetadata`) are translated line by line below.  The two loops
(`decodeNextFrame`'s `while (true)` and `read`'s `while`) are written with an
explicit fuel argument; adequacy of a concrete fuel bound is proved where a
claim needs termination.
-/

namespace FFmpegNapi

/-- A decoded audio frame; only the sample count (`frame->nb_samples`,
per channel) matters to the decoder logic. -/
structure Frame where
  nb_samples : Nat
deriving Repr, DecidableEq

/-- A demuxed packet as returned by `av_read_frame`: its stream index, whether
`avcodec_send_packet` rejects it, and the frames the codec will eventually
emit for it. -/
structure Packet where
  stream_index : Int
  bad : Bool
  frames : List Frame
deriving Repr, DecidableEq

/-- One outcome of `av_read_frame` while the source is not yet exhausted:
either a packet or a genuine read error (a negative return other than
`AVERROR_EOF`).  End of stream is represented by the end of the list. -/
inductive ReadItem where
  | pkt (p : Packet)
  | rerr
deriving Repr, DecidableEq

/-- Model of the libavcodec decoder state behind `codecCtx`. -/
structure CodecState where
  /-- Frames ready to be returned by `avcodec_receive_frame`. -/
  ready : List Frame
  /-- Delayed frames, released only when the flush packet arrives. -/
  tail : List Frame
  /-- The flush (null) packet has been received. -/
  flushed : Bool
  /-- `avcodec_receive_frame` fails with a generic error. -/
  broken : Bool
deriving Repr, DecidableEq

/-- Outcome of `avcodec_receive_frame`. -/
inductive RecvResult where
  | frame (f : Frame)
  | eagain
  | eof
  | err
deriving Repr, DecidableEq

/-- `avcodec_receive_frame`: a ready frame if one is queued, `AVERROR_EOF`
once the codec has been flushed and emptied, `EAGAIN` otherwise. -/
def CodecState.receive (c : CodecState) : RecvResult × CodecState :=
  if c.broken then (.err, c)
  else
    match c.ready with
    | f :: rest => (.frame f, { c with ready := rest })
    | [] => if c.flushed then (.eof, c) else (.eagain, c)

/-- `avcodec_send_packet` with a real packet: `false` models a negative
return; on success the packet's frames join the ready queue. -/
def CodecState.sendPacket (c : CodecState) (p : Packet) : Bool × CodecState :=
  if c.broken || p.bad then (false, c)
  else (true, { c with ready := c.ready ++ p.frames })

/-- `avcodec_send_packet(codecCtx, nullptr)`: the flush packet releases the
delayed frames and marks the codec flushed. -/
def CodecState.sendFlush (c : CodecState) : CodecState :=
  { c with ready := c.ready ++ c.tail, tail := [], flushed := true }

/-- `avcodec_flush_buffers`: drop all buffered frames and clear the flushed
state so the codec can decode again after a seek. -/
def CodecState.flushBuffers (c : CodecState) : CodecState :=
  { c with ready := [], tail := [], flushed := false }

/-- Model of the libswresample context behind `swrCtx`: a delay line that
keeps up to `holdTarget` samples back while input flows. -/
structure Swr where
  holdTarget : Nat
  delay : Nat
  broken : Bool
deriving Repr, DecidableEq

/-- `swr_convert` with a real input frame of `nin` samples and room for `cap`
output samples: emits what the delay line does not keep, capped by `cap`;
anything not emitted stays in the delay line. -/
def Swr.convertFrame (s : Swr) (cap : Nat) (nin : Nat) : Int × Swr :=
  if s.broken then (-1, s)
  else
    let total := s.delay + nin
    let avail := total - min s.holdTarget total
    let out := min avail cap
    ((out : Int), { s with delay := total - out })

/-- `swr_convert` with null input (flush): emits the delayed samples, capped
by `cap`; returns 0 once the delay line is empty. -/
def Swr.convertFlush (s : Swr) (cap : Nat) : Int × Swr :=
  if s.broken then (-1, s)
  else
    let out := min s.delay cap
    ((out : Int), { s with delay := s.delay - out })

/-- `OUTPUT_CHANNELS` (fixed stereo output). -/
def OUTPUT_CHANNELS : Int := 2

/-- `DEFAULT_OUTPUT_SAMPLE_RATE`. -/
def DEFAULT_OUTPUT_SAMPLE_RATE : Int := 44100

/-- The state of one `FFmpegDecoder` instance.  The four booleans mirror the
nullness of `formatCtx`, `codecCtx`, `swrCtx` and `sampleBuffer`; `packets`,
`codec` and `swr` are the modelled contents of the corresponding FFmpeg
contexts (meaningful only while allocated). -/
structure DecoderState where
  formatOpen : Bool
  codecAlloc : Bool
  swrAlloc : Bool
  bufAlloc : Bool
  packets : List ReadItem
  codec : CodecState
  swr : Swr
  audioStreamIndex : Int
  sampleBufferSize : Int
  samplesInBuffer : Int
  bufferReadPos : Int
  eofSignaled : Bool
  decoderDrained : Bool
  resamplerDrained : Bool
  outputSampleRate : Int
  threadCount : Int
deriving Repr, DecidableEq

/-- The `FFmpegDecoder` constructor: everything null / zero / false. -/
def initState : DecoderState where
  formatOpen := false
  codecAlloc := false
  swrAlloc := false
  bufAlloc := false
  packets := []
  codec := { ready := [], tail := [], flushed := false, broken := false }
  swr := { holdTarget := 0, delay := 0, broken := false }
  audioStreamIndex := -1
  sampleBufferSize := 0
  samplesInBuffer := 0
  bufferReadPos := 0
  eofSignaled := false
  decoderDrained := false
  resamplerDrained := false
  outputSampleRate := DEFAULT_OUTPUT_SAMPLE_RATE
  threadCount := 0

/-- `FFmpegDecoder::close`: frees the sample buffer, the resampler, the codec
context and the input context, resets the stream index, the staging-buffer
counters and the three drain flags.  (`sampleBufferSize`, `outputSampleRate`
and `threadCount` are not touched by the source.) -/
def close (s : DecoderState) : DecoderState :=
  { s with
    bufAlloc := false
    swrAlloc := false
    codecAlloc := false
    formatOpen := false
    audioStreamIndex := -1
    samplesInBuffer := 0
    bufferReadPos := 0
    eofSignaled := false
    decoderDrained := false
    resamplerDrained := false }

/-- `FFmpegDecoder::isOpen`: `formatCtx != nullptr`. -/
def isOpen (s : DecoderState) : Bool := s.formatOpen

/-- Output-buffer capacity handed to `swr_convert`:
`sampleBufferSize / OUTPUT_CHANNELS`. -/
def bufCap (s : DecoderState) : Nat := (s.sampleBufferSize / OUTPUT_CHANNELS).toNat

mutual

/-- `FFmpegDecoder::decodeNextFrame`, the `while (true)` chunk-production
loop, with explicit fuel for the `continue` back-edges.  Returns `none` when
the fuel runs out, otherwise `some (r, s')` where `r` is the C return value
(positive: samples now staged; `0`: end of stream — or an empty conversion;
`-1`: error) and `s'` the state after the call.  This function is step 1 of
the loop body (try `avcodec_receive_frame` first); `decodeDrainSteps` is
steps 2-4 (drain the resampler at decoder EOF, read/send the next packet,
or keep flushing). -/
def decodeNextFrame : Nat → DecoderState → Option (Int × DecoderState)
  | 0, _ => none
  | fuel + 1, s0 =>
    match s0.codec.receive with
    | (.frame f, c1) =>
      let s1 := { s0 with codec := c1 }
      let cw : Int × Swr := s1.swr.convertFrame (bufCap s1) f.nb_samples
      let s2 := { s1 with swr := cw.2 }
      if cw.1 < 0 then some (-1, s2)
      else
        let nsb := cw.1 * OUTPUT_CHANNELS
        some (nsb, { s2 with samplesInBuffer := nsb, bufferReadPos := 0 })
    | (.err, c1) => some (-1, { s0 with codec := c1 })
    | (.eof, c1) =>
      decodeDrainSteps fuel { s0 with codec := c1, decoderDrained := true }
    | (.eagain, c1) => decodeDrainSteps fuel { s0 with codec := c1 }
termination_by fuel _ => (fuel, 0)

/-- Steps 2-4 of the `decodeNextFrame` loop body, entered after
`avcodec_receive_frame` returned `EAGAIN` or `AVERROR_EOF` (with
`decoderDrained` already updated). -/
def decodeDrainSteps (fuel : Nat) (s : DecoderState) : Option (Int × DecoderState) :=
  if s.decoderDrained && !s.resamplerDrained then
    let cw : Int × Swr := s.swr.convertFlush (bufCap s)
    let s2 := { s with swr := cw.2 }
    if cw.1 < 0 then some (-1, s2)
    else if cw.1 > 0 then
      let nsb := cw.1 * OUTPUT_CHANNELS
      some (nsb, { s2 with samplesInBuffer := nsb, bufferReadPos := 0 })
    else some (0, { s2 with resamplerDrained := true })
  else if !s.eofSignaled then
    match s.packets with
    | [] =>
      decodeNextFrame fuel { s with eofSignaled := true, codec := s.codec.sendFlush }
    | ReadItem.rerr :: rest => some (-1, { s with packets := rest })
    | ReadItem.pkt p :: rest =>
      if p.stream_index ≠ s.audioStreamIndex then
        decodeNextFrame fuel { s with packets := rest }
      else
        let sp := s.codec.sendPacket p
        if sp.1 then decodeNextFrame fuel { s with packets := rest, codec := sp.2 }
        else some (-1, { s with packets := rest, codec := sp.2 })
  else if !s.decoderDrained then
    decodeNextFrame fuel s
  else
    some (0, s)
termination_by (fuel, 1)

end

/-- The `while (totalRead < numSamples)` loop of `FFmpegDecoder::read`.
`dfuel` is the fuel given to each `decodeNextFrame` call, the first argument
counts loop iterations; `none` means a fuel bound was hit. -/
def readLoop (dfuel : Nat) : Nat → DecoderState → Int → Int → Option (Int × DecoderState)
  | 0, _, _, _ => none
  | ifuel + 1, s, numSamples, totalRead =>
    if totalRead < numSamples then
      if s.bufferReadPos ≥ s.samplesInBuffer then
        match decodeNextFrame dfuel s with
        | none => none
        | some (d, s1) =>
          if d ≤ 0 then some (totalRead, s1)
          else
            let available := s1.samplesInBuffer - s1.bufferReadPos
            let toCopy := min available (numSamples - totalRead)
            readLoop dfuel ifuel
              { s1 with bufferReadPos := s1.bufferReadPos + toCopy }
              numSamples (totalRead + toCopy)
      else
        let available := s.samplesInBuffer - s.bufferReadPos
        let toCopy := min available (numSamples - totalRead)
        readLoop dfuel ifuel
          { s with bufferReadPos := s.bufferReadPos + toCopy }
          numSamples (totalRead + toCopy)
    else some (totalRead, s)

/-- `FFmpegDecoder::read(outBuffer, numSamples)`: returns 0 untouched when
the session is closed (`!formatCtx`) or the output buffer is null, otherwise
runs the copy loop.  `outBufValid` models `outBuffer != nullptr`. -/
def read (dfuel ifuel : Nat) (s : DecoderState) (outBufValid : Bool) (numSamples : Int) :
    Option (Int × DecoderState) :=
  if !s.formatOpen || !outBufValid then some (0, s)
  else readLoop dfuel ifuel s numSamples 0

/-- `FFmpegDecoder::seek(seconds)`.  `seekOk` models the return of the
backward-biased `av_seek_frame` call, `swrInitOk` the return of the
`swr_init` re-initialisation (whose failure the source deliberately
ignores), and `newPackets` the repositioned packet source.  On a failed
underlying seek nothing is mutated. -/
def seek (s : DecoderState) (seekOk : Bool) (swrInitOk : Bool)
    (newPackets : List ReadItem) : Bool × DecoderState :=
  if !s.formatOpen then (false, s)
  else if !seekOk then (false, s)
  else
    (true, { s with
      packets := newPackets
      codec := s.codec.flushBuffers
      swr := { s.swr with delay := 0, broken := s.swr.broken || !swrInitOk }
      samplesInBuffer := 0
      bufferReadPos := 0
      eofSignaled := false
      decoderDrained := false
      resamplerDrained := false })

/-- The backend's answers to every fallible step of `FFmpegDecoder::open`,
plus the stream table and the decoder/resampler contents it provides once
opened. -/
structure OpenEnv where
  openOk : Bool
  findStreamInfoOk : Bool
  streamIsAudio : List Bool
  decoderFound : Bool
  ctxAllocOk : Bool
  paramsOk : Bool
  codecOpenOk : Bool
  swrAllocOk : Bool
  swrInitOk : Bool
  swrHoldTarget : Nat
  packets : List ReadItem
  codec0 : CodecState
deriving Repr, DecidableEq

/-- The stream-scan loop of `open`: index of the first audio stream,
`-1` when there is none. -/
def findAudioIndex : List Bool → Int → Int
  | [], _ => -1
  | b :: rest, i => if b then i else findAudioIndex rest (i + 1)

/-- `FFmpegDecoder::initResampler`: allocate and init the resampler; on
`swr_init` failure the context is freed again.  Returns the C `bool` and the
updated state. -/
def initResampler (s : DecoderState) (env : OpenEnv) : Bool × DecoderState :=
  if !env.swrAllocOk then (false, s)
  else if !env.swrInitOk then (false, s)
  else (true, { s with
    swrAlloc := true
    swr := { holdTarget := env.swrHoldTarget, delay := 0, broken := false } })

/-- `FFmpegDecoder::open(filePath, outSampleRate, threads)`.  Each failure
path releases exactly what was acquired so far, mirroring the source:
`avformat_open_input` frees the context itself on failure; later failures
call `avformat_close_input` (and `avcodec_free_context` where the codec
context exists); a resampler-init failure calls `close()`. -/
def openDecoder (s : DecoderState) (env : OpenEnv) (outSampleRate : Int)
    (threads : Int) : Bool × DecoderState :=
  let s := { s with
    outputSampleRate := if outSampleRate > 0 then outSampleRate
                        else DEFAULT_OUTPUT_SAMPLE_RATE
    threadCount := threads }
  if !env.openOk then (false, { s with formatOpen := false })
  else
    let s := { s with formatOpen := true, packets := env.packets }
    if !env.findStreamInfoOk then (false, { s with formatOpen := false })
    else
      let s := { s with audioStreamIndex := findAudioIndex env.streamIsAudio 0 }
      if s.audioStreamIndex = -1 then (false, { s with formatOpen := false })
      else if !env.decoderFound then (false, { s with formatOpen := false })
      else if !env.ctxAllocOk then (false, { s with formatOpen := false })
      else
        let s := { s with codecAlloc := true }
        if !env.paramsOk then
          (false, { s with codecAlloc := false, formatOpen := false })
        else if !env.codecOpenOk then
          (false, { s with codecAlloc := false, formatOpen := false })
        else
          let s := { s with codec := env.codec0 }
          let ir := initResampler s env
          if !ir.1 then (false, close ir.2)
          else
            let s := ir.2
            (true, { s with
              bufAlloc := true
              sampleBufferSize := s.outputSampleRate * OUTPUT_CHANNELS
              eofSignaled := false
              decoderDrained := false
              resamplerDrained := false })

/-- One character of the C `isspace` class skipped by `atoi`. -/
def isSpaceC (c : Char) : Bool :=
  c = ' ' || c = '\t' || c = '\n' || c = '\x0b' || c = '\x0c' || c = '\r'

/-- The digit loop of C `atoi`: value of the leading digit run. -/
def digitsVal : List Char → Nat → Nat
  | [], acc => acc
  | c :: cs, acc =>
    if c.isDigit then digitsVal cs (10 * acc + (c.toNat - 48)) else acc

/-- C `atoi`: skip whitespace, read an optional sign, then the leading digit
run; text with no leading digits yields 0. -/
def atoiModel (l : List Char) : Int :=
  match l.dropWhile isSpaceC with
  | '-' :: cs => -(digitsVal cs 0 : Int)
  | '+' :: cs => (digitsVal cs 0 : Int)
  | cs => (digitsVal cs 0 : Int)

/-- `str.find('/')` plus the two substrings: `some (before, after)` when a
slash occurs, `none` otherwise. -/
def splitAtSlash : List Char → Option (List Char × List Char)
  | [] => none
  | c :: cs =>
    if c = '/' then some ([], cs)
    else
      match splitAtSlash cs with
      | some pr => some (c :: pr.1, pr.2)
      | none => none

/-- `FFmpegDecoder::parseTrackNumber(str, &total)`, returned here as the pair
`(number, total)`: empty input yields `(0, 0)`; with a slash, the left part
is the number and the right part the total; otherwise the whole string is
the number and the total is 0. -/
def parseTrackNumber (str : String) : Int × Int :=
  if str.isEmpty then (0, 0)
  else
    match splitAtSlash str.data with
    | some pr => (atoiModel pr.1, atoiModel pr.2)
    | none => (atoiModel str.data, 0)

/-- Codec identifiers distinguished by the cover-art MIME classification. -/
inductive CodecID where
  | mjpeg
  | jpeg2000
  | png
  | bmp
  | otherCodec
deriving Repr, DecidableEq

/-- One container stream as seen by the metadata scan: its attached-picture
disposition bit, its codec id and the attached picture's payload bytes. -/
structure MetaStream where
  attachedPic : Bool
  codecId : CodecID
  picData : List Nat
deriving Repr, DecidableEq

/-- The MIME classification chain shared by `getMetadata` and
`getFileMetadata`: JPEG-family to `image/jpeg`, PNG to `image/png`, BMP to
`image/bmp`, any other attached codec defaults to `image/jpeg`. -/
def mimeOfCodec (c : CodecID) : String :=
  if c = CodecID.mjpeg ∨ c = CodecID.jpeg2000 then "image/jpeg"
  else if c = CodecID.png then "image/png"
  else if c = CodecID.bmp then "image/bmp"
  else "image/jpeg"

/-- The cover-art stream scan of `FFmpegDecoder::getMetadata`: the first
stream with the attached-picture disposition wins (the loop breaks), its
payload is copied verbatim and classified; no such stream leaves the default
empty payload and empty MIME string. -/
def getMetadataCover : List MetaStream → List Nat × String
  | [] => ([], "")
  | st :: rest =>
    if st.attachedPic then (st.picData, mimeOfCodec st.codecId)
    else getMetadataCover rest

/-- The textually identical cover-art scan inside
`FFmpegDecoder::getFileMetadata`. -/
def getFileMetadataCover : List MetaStream → List Nat × String
  | [] => ([], "")
  | st :: rest =>
    if st.attachedPic then (st.picData, mimeOfCodec st.codecId)
    else getFileMetadataCover rest

/-- Decoder states reachable from a freshly constructed `FFmpegDecoder` by
any sequence of the public operations.  `open` is applied to closed sessions
(`avformat_open_input` requires a null context pointer). -/
inductive Reachable : DecoderState → Prop where
  | init : Reachable initState
  | openStep (s : DecoderState) (env : OpenEnv) (rate threads : Int) :
      Reachable s → s.formatOpen = false →
      Reachable (openDecoder s env rate threads).2
  | closeStep (s : DecoderState) : Reachable s → Reachable (close s)
  | seekStep (s : DecoderState) (ok swrOk : Bool) (ps : List ReadItem) :
      Reachable s → Reachable (seek s ok swrOk ps).2
  | readStep (dfuel ifuel : Nat) (s : DecoderState) (bufValid : Bool)
      (n r : Int) (s' : DecoderState) :
      Reachable s → read dfuel ifuel s bufValid n = some (r, s') →
      Reachable s'

/-- The drain-order invariant together with the staging-buffer cursor
invariant. -/
def Inv (s : DecoderState) : Prop :=
  (s.resamplerDrained = true → s.decoderDrained = true) ∧
  0 ≤ s.bufferReadPos ∧ s.bufferReadPos ≤ s.samplesInBuffer

theorem decodeDrainSteps_inv (n : Nat)
    (hP : ∀ s s' r, decodeNextFrame n s = some (r, s') → Inv s → Inv s') :
    ∀ (t s' : DecoderState) (r : Int),
      decodeDrainSteps n t = some (r, s') → Inv t → Inv s' := by
  intro t s' r h hInv
  obtain ⟨hres, hpos0, hpos1⟩ := hInv
  simp only [decodeDrainSteps] at h
  split at h
  · rename_i hcond
    split at h
    · simp only [Option.some.injEq, Prod.mk.injEq] at h
      obtain ⟨-, hs⟩ := h
      subst hs
      exact ⟨hres, hpos0, hpos1⟩
    · split at h
      · rename_i hlt hgt
        simp only [Option.some.injEq, Prod.mk.injEq] at h
        obtain ⟨-, hs⟩ := h
        subst hs
        refine ⟨hres, le_refl 0, ?_⟩
        simp only [OUTPUT_CHANNELS]
        omega
      · simp only [Option.some.injEq, Prod.mk.injEq] at h
        obtain ⟨-, hs⟩ := h
        subst hs
        simp only [Bool.and_eq_true] at hcond
        exact ⟨fun _ => hcond.1, hpos0, hpos1⟩
  · split at h
    · split at h
      · exact hP _ _ _ h ⟨hres, hpos0, hpos1⟩
      · simp only [Option.some.injEq, Prod.mk.injEq] at h
        obtain ⟨-, hs⟩ := h
        subst hs
        exact ⟨hres, hpos0, hpos1⟩
      · split at h
        · exact hP _ _ _ h ⟨hres, hpos0, hpos1⟩
        · split at h
          · exact hP _ _ _ h ⟨hres, hpos0, hpos1⟩
          · simp only [Option.some.injEq, Prod.mk.injEq] at h
            obtain ⟨-, hs⟩ := h
            subst hs
            exact ⟨hres, hpos0, hpos1⟩
    · split at h
      · exact hP _ _ _ h ⟨hres, hpos0, hpos1⟩
      · simp only [Option.some.injEq, Prod.mk.injEq] at h
        obtain ⟨-, hs⟩ := h
        subst hs
        exact ⟨hres, hpos0, hpos1⟩

theorem decodeNextFrame_inv : ∀ (fuel : Nat) (s s' : DecoderState) (r : Int),
    decodeNextFrame fuel s = some (r, s') → Inv s → Inv s' := by
  intro fuel
  induction fuel with
  | zero =>
    intro s s' r h
    simp [decodeNextFrame] at h
  | succ n ih =>
    intro s s' r h hInv
    obtain ⟨hres, hpos0, hpos1⟩ := hInv
    simp only [decodeNextFrame] at h
    rcases hrc : s.codec.receive with ⟨rr, c1⟩
    rw [hrc] at h
    cases rr with
    | frame f =>
      simp only [] at h
      split at h
      · simp only [Option.some.injEq, Prod.mk.injEq] at h
        obtain ⟨-, hs⟩ := h
        subst hs
        exact ⟨hres, hpos0, hpos1⟩
      · rename_i hcw
        simp only [Option.some.injEq, Prod.mk.injEq] at h
        obtain ⟨-, hs⟩ := h
        subst hs
        refine ⟨hres, le_refl 0, ?_⟩
        simp only [OUTPUT_CHANNELS]
        omega
    | err =>
      simp only [Option.some.injEq, Prod.mk.injEq] at h
      obtain ⟨-, hs⟩ := h
      subst hs
      exact ⟨hres, hpos0, hpos1⟩
    | eagain =>
      exact decodeDrainSteps_inv n ih _ _ _ h ⟨hres, hpos0, hpos1⟩
    | eof =>
      exact decodeDrainSteps_inv n ih _ _ _ h ⟨fun _ => rfl, hpos0, hpos1⟩

theorem decodeDrainSteps_pos (n : Nat)
    (hP : ∀ s s' r, decodeNextFrame n s = some (r, s') → 0 < r →
      s'.samplesInBuffer = r ∧ s'.bufferReadPos = 0) :
    ∀ (t s' : DecoderState) (r : Int),
      decodeDrainSteps n t = some (r, s') → 0 < r →
      s'.samplesInBuffer = r ∧ s'.bufferReadPos = 0 := by
  intro t s' r h hr
  simp only [decodeDrainSteps] at h
  split at h
  · split at h
    · simp only [Option.some.injEq, Prod.mk.injEq] at h
      obtain ⟨hrr, hs⟩ := h
      omega
    · split at h
      · simp only [Option.some.injEq, Prod.mk.injEq] at h
        obtain ⟨hrr, hs⟩ := h
        subst hrr
        subst hs
        exact ⟨rfl, rfl⟩
      · simp only [Option.some.injEq, Prod.mk.injEq] at h
        obtain ⟨hrr, hs⟩ := h
        omega
  · split at h
    · split at h
      · exact hP _ _ _ h hr
      · simp only [Option.some.injEq, Prod.mk.injEq] at h
        obtain ⟨hrr, hs⟩ := h
        omega
      · split at h
        · exact hP _ _ _ h hr
        · split at h
          · exact hP _ _ _ h hr
          · simp only [Option.some.injEq, Prod.mk.injEq] at h
            obtain ⟨hrr, hs⟩ := h
            omega
    · split at h
      · exact hP _ _ _ h hr
      · simp only [Option.some.injEq, Prod.mk.injEq] at h
        obtain ⟨hrr, hs⟩ := h
        omega

theorem decodeNextFrame_pos : ∀ (fuel : Nat) (s s' : DecoderState) (r : Int),
    decodeNextFrame fuel s = some (r, s') → 0 < r →
    s'.samplesInBuffer = r ∧ s'.bufferReadPos = 0 := by
  intro fuel
  induction fuel with
  | zero =>
    intro s s' r h
    simp [decodeNextFrame] at h
  | succ n ih =>
    intro s s' r h hr
    simp only [decodeNextFrame] at h
    rcases hrc : s.codec.receive with ⟨rr, c1⟩
    rw [hrc] at h
    cases rr with
    | frame f =>
      simp only [] at h
      split at h
      · simp only [Option.some.injEq, Prod.mk.injEq] at h
        obtain ⟨hrr, hs⟩ := h
        omega
      · simp only [Option.some.injEq, Prod.mk.injEq] at h
        obtain ⟨hrr, hs⟩ := h
        subst hrr
        subst hs
        exact ⟨rfl, rfl⟩
    | err =>
      simp only [Option.some.injEq, Prod.mk.injEq] at h
      obtain ⟨hrr, hs⟩ := h
      omega
    | eagain => exact decodeDrainSteps_pos n ih _ _ _ h hr
    | eof => exact decodeDrainSteps_pos n ih _ _ _ h hr

theorem decodeDrainSteps_packets (n : Nat)
    (hP : ∀ s s' r, decodeNextFrame n s = some (r, s') →
      s'.packets.length ≤ s.packets.length) :
    ∀ (t s' : DecoderState) (r : Int),
      decodeDrainSteps n t = some (r, s') →
      s'.packets.length ≤ t.packets.length := by
  intro t s' r h
  simp only [decodeDrainSteps] at h
  split at h
  · split at h
    · simp only [Option.some.injEq, Prod.mk.injEq] at h
      obtain ⟨-, hs⟩ := h
      subst hs
      exact le_refl _
    · split at h
      · simp only [Option.some.injEq, Prod.mk.injEq] at h
        obtain ⟨-, hs⟩ := h
        subst hs
        exact le_refl _
      · simp only [Option.some.injEq, Prod.mk.injEq] at h
        obtain ⟨-, hs⟩ := h
        subst hs
        exact le_refl _
  · split at h
    · split at h
      · rename_i hnil
        have hle := hP _ _ _ h
        exact hle
      · rename_i rest hcons
        simp only [Option.some.injEq, Prod.mk.injEq] at h
        obtain ⟨-, hs⟩ := h
        subst hs
        show rest.length ≤ t.packets.length
        rw [hcons]
        simp only [List.length_cons]
        omega
      · rename_i p rest hcons
        split at h
        · have hle := hP _ _ _ h
          have hle2 : s'.packets.length ≤ rest.length := hle
          rw [hcons]
          simp only [List.length_cons]
          omega
        · split at h
          · have hle := hP _ _ _ h
            have hle2 : s'.packets.length ≤ rest.length := hle
            rw [hcons]
            simp only [List.length_cons]
            omega
          · simp only [Option.some.injEq, Prod.mk.injEq] at h
            obtain ⟨-, hs⟩ := h
            subst hs
            show rest.length ≤ t.packets.length
            rw [hcons]
            simp only [List.length_cons]
            omega
    · split at h
      · have hle := hP _ _ _ h
        exact hle
      · simp only [Option.some.injEq, Prod.mk.injEq] at h
        obtain ⟨-, hs⟩ := h
        subst hs
        exact le_refl _

theorem decodeNextFrame_packets : ∀ (fuel : Nat) (s s' : DecoderState) (r : Int),
    decodeNextFrame fuel s = some (r, s') →
    s'.packets.length ≤ s.packets.length := by
  intro fuel
  induction fuel with
  | zero =>
    intro s s' r h
    simp [decodeNextFrame] at h
  | succ n ih =>
    intro s s' r h
    simp only [decodeNextFrame] at h
    rcases hrc : s.codec.receive with ⟨rr, c1⟩
    rw [hrc] at h
    cases rr with
    | frame f =>
      simp only [] at h
      split at h
      · simp only [Option.some.injEq, Prod.mk.injEq] at h
        obtain ⟨-, hs⟩ := h
        subst hs
        exact le_refl _
      · simp only [Option.some.injEq, Prod.mk.injEq] at h
        obtain ⟨-, hs⟩ := h
        subst hs
        exact le_refl _
    | err =>
      simp only [Option.some.injEq, Prod.mk.injEq] at h
      obtain ⟨-, hs⟩ := h
      subst hs
      exact le_refl _
    | eagain =>
      have h' : decodeDrainSteps n { s with codec := c1 } = some (r, s') := h
      have hle := decodeDrainSteps_packets n ih _ _ _ h'
      exact hle
    | eof =>
      have h' : decodeDrainSteps n
          { s with codec := c1, decoderDrained := true } = some (r, s') := h
      have hle := decodeDrainSteps_packets n ih _ _ _ h'
      exact hle

theorem receive_eagain_spec {c c' : CodecState}
    (h : c.receive = (RecvResult.eagain, c')) : c' = c ∧ c.flushed = false := by
  unfold CodecState.receive at h
  split at h
  · simp at h
  · split at h
    · simp at h
    · split at h
      · simp at h
      · simp only [Prod.mk.injEq] at h
        exact ⟨h.2.symm, by rename_i hfl; simpa using hfl⟩

theorem receive_eof_spec {c c' : CodecState}
    (h : c.receive = (RecvResult.eof, c')) :
    c' = c ∧ c.flushed = true ∧ c.ready = [] := by
  unfold CodecState.receive at h
  split at h
  · simp at h
  · split at h
    · simp at h
    · rename_i hready
      split at h
      · simp only [Prod.mk.injEq] at h
        rename_i hfl
        exact ⟨h.2.symm, hfl, hready⟩
      · simp at h

theorem receive_frame_spec {c c' : CodecState} {f : Frame}
    (h : c.receive = (RecvResult.frame f, c')) :
    c.broken = false ∧ ∃ rest, c.ready = f :: rest ∧ c' = { c with ready := rest } := by
  unfold CodecState.receive at h
  split at h
  · simp at h
  · rename_i hbr
    split at h
    · rename_i g rest hready
      simp only [Prod.mk.injEq, RecvResult.frame.injEq] at h
      obtain ⟨hf, hc⟩ := h
      subst hf
      exact ⟨by simpa using hbr, rest, hready, hc.symm⟩
    · split at h
      · simp at h
      · simp at h

theorem receive_err_spec {c c' : CodecState}
    (h : c.receive = (RecvResult.err, c')) : c.broken = true ∧ c' = c := by
  unfold CodecState.receive at h
  split at h
  · simp only [Prod.mk.injEq] at h
    rename_i hbr
    exact ⟨hbr, h.2.symm⟩
  · split at h
    · simp at h
    · split at h
      · simp at h
      · simp at h

theorem decodeDrainSteps_eofFlip (n : Nat)
    (hFlip : ∀ s s' r, decodeNextFrame n s = some (r, s') →
      s.eofSignaled = false → s'.eofSignaled = true → s'.packets = []) :
    ∀ (t s' : DecoderState) (r : Int),
      decodeDrainSteps n t = some (r, s') →
      t.eofSignaled = false → s'.eofSignaled = true → s'.packets = [] := by
  intro t s' r h hEof hTrue
  simp only [decodeDrainSteps] at h
  split at h
  · split at h
    · simp only [Option.some.injEq, Prod.mk.injEq] at h
      obtain ⟨-, hs⟩ := h
      subst hs
      have hx : t.eofSignaled = true := hTrue
      rw [hEof] at hx
      simp at hx
    · split at h
      · simp only [Option.some.injEq, Prod.mk.injEq] at h
        obtain ⟨-, hs⟩ := h
        subst hs
        have hx : t.eofSignaled = true := hTrue
        rw [hEof] at hx
        simp at hx
      · simp only [Option.some.injEq, Prod.mk.injEq] at h
        obtain ⟨-, hs⟩ := h
        subst hs
        have hx : t.eofSignaled = true := hTrue
        rw [hEof] at hx
        simp at hx
  · split at h
    · split at h
      · rename_i hnil
        have h0 := decodeNextFrame_packets n _ _ _ h
        have h1 : s'.packets.length ≤ t.packets.length := h0
        rw [hnil] at h1
        simp only [List.length_nil, Nat.le_zero] at h1
        exact List.eq_nil_of_length_eq_zero h1
      · simp only [Option.some.injEq, Prod.mk.injEq] at h
        obtain ⟨-, hs⟩ := h
        subst hs
        have hx : t.eofSignaled = true := hTrue
        rw [hEof] at hx
        simp at hx
      · split at h
        · exact hFlip _ _ _ h hEof hTrue
        · split at h
          · exact hFlip _ _ _ h hEof hTrue
          · simp only [Option.some.injEq, Prod.mk.injEq] at h
            obtain ⟨-, hs⟩ := h
            subst hs
            have hx : t.eofSignaled = true := hTrue
            rw [hEof] at hx
            simp at hx
    · rename_i hcond
      rw [hEof] at hcond
      simp at hcond

theorem decodeNextFrame_eofFlip : ∀ (fuel : Nat) (s s' : DecoderState) (r : Int),
    decodeNextFrame fuel s = some (r, s') →
    s.eofSignaled = false → s'.eofSignaled = true → s'.packets = [] := by
  intro fuel
  induction fuel with
  | zero =>
    intro s s' r h
    simp [decodeNextFrame] at h
  | succ n ih =>
    intro s s' r h hEof hTrue
    simp only [decodeNextFrame] at h
    rcases hrc : s.codec.receive with ⟨rr, c1⟩
    rw [hrc] at h
    cases rr with
    | frame f =>
      simp only [] at h
      split at h
      · simp only [Option.some.injEq, Prod.mk.injEq] at h
        obtain ⟨-, hs⟩ := h
        subst hs
        have hx : s.eofSignaled = true := hTrue
        rw [hEof] at hx
        simp at hx
      · simp only [Option.some.injEq, Prod.mk.injEq] at h
        obtain ⟨-, hs⟩ := h
        subst hs
        have hx : s.eofSignaled = true := hTrue
        rw [hEof] at hx
        simp at hx
    | err =>
      simp only [Option.some.injEq, Prod.mk.injEq] at h
      obtain ⟨-, hs⟩ := h
      subst hs
      have hx : s.eofSignaled = true := hTrue
      rw [hEof] at hx
      simp at hx
    | eagain =>
      have h' : decodeDrainSteps n { s with codec := c1 } = some (r, s') := h
      exact decodeDrainSteps_eofFlip n ih _ _ _ h' hEof hTrue
    | eof =>
      have h' : decodeDrainSteps n
          { s with codec := c1, decoderDrained := true } = some (r, s') := h
      exact decodeDrainSteps_eofFlip n ih _ _ _ h' hEof hTrue

/-- Fuel sufficient for one `decodeNextFrame` call: one unit per remaining
packet, one for the EOF transition, one for the final flush round. -/
def decodeFuelBound (s : DecoderState) : Nat :=
  s.packets.length + (if s.eofSignaled then 1 else 2)

theorem decodeDrainSteps_total (n : Nat)
    (hP : ∀ s : DecoderState, (s.eofSignaled = true → s.codec.flushed = true) →
      decodeFuelBound s ≤ n → ∃ rs, decodeNextFrame n s = some rs) :
    ∀ t : DecoderState, (t.eofSignaled = true → t.codec.flushed = true) →
      (t.codec.flushed = true → t.decoderDrained = true) →
      decodeFuelBound t ≤ n + 1 →
      ∃ rs, decodeDrainSteps n t = some rs := by
  intro t hT hFD hB
  simp only [decodeDrainSteps]
  split
  · split
    · exact ⟨_, rfl⟩
    · split
      · exact ⟨_, rfl⟩
      · exact ⟨_, rfl⟩
  · split
    · rename_i hcond hne
      rcases hp : t.packets with _ | ⟨item, rest⟩
      · simp only [hp]
        apply hP
        · intro _
          show (t.codec.sendFlush).flushed = true
          simp [CodecState.sendFlush]
        · have hEofF : t.eofSignaled = false := by
            by_contra hc
            simp only [Bool.not_eq_false] at hc
            rw [hc] at hne
            simp at hne
          have hb2 : decodeFuelBound t = 2 := by
            simp [decodeFuelBound, hp, hEofF]
          rw [hb2] at hB
          show 1 ≤ n
          omega
      · cases item with
        | rerr => exact ⟨_, rfl⟩
        | pkt p =>
          simp only []
          split
          · apply hP
            · intro he
              exact hT he
            · show rest.length + (if t.eofSignaled then 1 else 2) ≤ n
              simp only [decodeFuelBound, hp, List.length_cons] at hB
              cases ht : t.eofSignaled
              · simp only [ht] at hB ⊢
                simp only [if_neg Bool.false_ne_true] at hB ⊢
                omega
              · simp only [ht] at hB ⊢
                omega
          · split
            · apply hP
              · intro he
                have he2 : t.eofSignaled = true := he
                have hfl : ((t.codec.sendPacket p).2).flushed = t.codec.flushed := by
                  unfold CodecState.sendPacket
                  split
                  · rfl
                  · rfl
                show ((t.codec.sendPacket p).2).flushed = true
                rw [hfl]
                exact hT he2
              · show rest.length + (if t.eofSignaled then 1 else 2) ≤ n
                simp only [decodeFuelBound, hp, List.length_cons] at hB
                cases ht : t.eofSignaled
                · simp only [ht] at hB ⊢
                  simp only [if_neg Bool.false_ne_true] at hB ⊢
                  omega
                · simp only [ht] at hB ⊢
                  omega
            · exact ⟨_, rfl⟩
    · rename_i hcond hne
      split
      · rename_i hnd
        exfalso
        have hEofT : t.eofSignaled = true := by
          by_contra hc
          simp only [Bool.not_eq_true] at hc
          rw [hc] at hne
          simp at hne
        have hfl := hT hEofT
        have hdd := hFD hfl
        rw [hdd] at hnd
        simp at hnd
      · exact ⟨_, rfl⟩

theorem exists_some_ite {α : Type} (c : Prop) [Decidable c] (a b : α) :
    ∃ x, (if c then some a else some b) = some x := by
  by_cases h : c
  · exact ⟨a, by simp [h]⟩
  · exact ⟨b, by simp [h]⟩

theorem decodeNextFrame_total : ∀ (fuel : Nat) (s : DecoderState),
    (s.eofSignaled = true → s.codec.flushed = true) →
    decodeFuelBound s ≤ fuel →
    ∃ rs, decodeNextFrame fuel s = some rs := by
  intro fuel
  induction fuel with
  | zero =>
    intro s hT hB
    exfalso
    cases ht : s.eofSignaled <;> simp [decodeFuelBound, ht] at hB
  | succ n ih =>
    intro s hT hB
    simp only [decodeNextFrame]
    rcases hrc : s.codec.receive with ⟨rr, c1⟩
    cases rr with
    | frame f => exact exists_some_ite _ _ _
    | err => exact ⟨_, rfl⟩
    | eagain =>
      obtain ⟨hc1, hfl⟩ := receive_eagain_spec hrc
      subst hc1
      apply decodeDrainSteps_total n ih
      · exact hT
      · intro hx
        rw [hfl] at hx
        simp at hx
      · exact hB
    | eof =>
      obtain ⟨hc1, hflu, hrd⟩ := receive_eof_spec hrc
      subst hc1
      apply decodeDrainSteps_total n ih
      · intro _
        exact hflu
      · intro _
        rfl
      · exact hB

theorem readLoop_inv (dfuel : Nat) :
    ∀ (ifuel : Nat) (s s' : DecoderState) (n total r : Int),
      readLoop dfuel ifuel s n total = some (r, s') → Inv s → Inv s' := by
  intro ifuel
  induction ifuel with
  | zero =>
    intro s s' n total r h
    simp [readLoop] at h
  | succ m ih =>
    intro s s' n total r h hInv
    simp only [readLoop] at h
    split at h
    · rename_i htn
      split at h
      · rename_i hrefill
        rcases hd : decodeNextFrame dfuel s with _ | ⟨d, s1⟩
        · rw [hd] at h
          simp at h
        · rw [hd] at h
          simp only [] at h
          split at h
          · simp only [Option.some.injEq, Prod.mk.injEq] at h
            obtain ⟨-, hs⟩ := h
            subst hs
            exact decodeNextFrame_inv dfuel _ _ _ hd hInv
          · rename_i hdpos
            have hInv1 := decodeNextFrame_inv dfuel _ _ _ hd hInv
            have hfields := decodeNextFrame_pos dfuel _ _ _ hd (by omega)
            obtain ⟨hres1, -, -⟩ := hInv1
            obtain ⟨hsb, hbp⟩ := hfields
            apply ih _ _ _ _ _ h
            refine ⟨hres1, ?_, ?_⟩
            · show 0 ≤ s1.bufferReadPos +
                min (s1.samplesInBuffer - s1.bufferReadPos) (n - total)
              rw [hsb, hbp]
              omega
            · show s1.bufferReadPos +
                  min (s1.samplesInBuffer - s1.bufferReadPos) (n - total) ≤
                s1.samplesInBuffer
              rw [hsb, hbp]
              omega
      · rename_i hrefill
        obtain ⟨hres, hpos0, hpos1⟩ := hInv
        apply ih _ _ _ _ _ h
        refine ⟨hres, ?_, ?_⟩
        · show 0 ≤ s.bufferReadPos +
            min (s.samplesInBuffer - s.bufferReadPos) (n - total)
          omega
        · show s.bufferReadPos +
              min (s.samplesInBuffer - s.bufferReadPos) (n - total) ≤
            s.samplesInBuffer
          omega
    · simp only [Option.some.injEq, Prod.mk.injEq] at h
      obtain ⟨-, hs⟩ := h
      subst hs
      exact hInv

theorem read_inv (dfuel ifuel : Nat) (s s' : DecoderState) (bufValid : Bool)
    (n r : Int) (h : read dfuel ifuel s bufValid n = some (r, s')) (hInv : Inv s) :
    Inv s' := by
  unfold read at h
  split at h
  · simp only [Option.some.injEq, Prod.mk.injEq] at h
    obtain ⟨-, hs⟩ := h
    subst hs
    exact hInv
  · exact readLoop_inv dfuel ifuel _ _ _ _ _ h hInv

theorem close_inv (s : DecoderState) : Inv (close s) := by
  refine ⟨?_, ?_, ?_⟩ <;> simp [close]

theorem seek_inv (s : DecoderState) (ok swrOk : Bool) (ps : List ReadItem)
    (hInv : Inv s) : Inv (seek s ok swrOk ps).2 := by
  obtain ⟨hres, h0, h1⟩ := hInv
  unfold seek
  split
  · exact ⟨hres, h0, h1⟩
  · split
    · exact ⟨hres, h0, h1⟩
    · refine ⟨?_, ?_, ?_⟩ <;> simp

theorem openDecoder_inv (s : DecoderState) (env : OpenEnv) (rate threads : Int)
    (hInv : Inv s) : Inv (openDecoder s env rate threads).2 := by
  obtain ⟨hres, h0, h1⟩ := hInv
  simp only [openDecoder, initResampler]
  cases e1 : env.openOk
  · simp [e1]
    exact ⟨hres, h0, h1⟩
  · cases e2 : env.findStreamInfoOk
    · simp [e1, e2]
      exact ⟨hres, h0, h1⟩
    · by_cases e3 : findAudioIndex env.streamIsAudio 0 = -1
      · simp [e1, e2, e3]
        exact ⟨hres, h0, h1⟩
      · cases e4 : env.decoderFound
        · simp [e1, e2, e3, e4]
          exact ⟨hres, h0, h1⟩
        · cases e5 : env.ctxAllocOk
          · simp [e1, e2, e3, e4, e5]
            exact ⟨hres, h0, h1⟩
          · cases e6 : env.paramsOk
            · simp [e1, e2, e3, e4, e5, e6]
              exact ⟨hres, h0, h1⟩
            · cases e7 : env.codecOpenOk
              · simp [e1, e2, e3, e4, e5, e6, e7]
                exact ⟨hres, h0, h1⟩
              · cases e8 : env.swrAllocOk
                · simp [e1, e2, e3, e4, e5, e6, e7, e8]
                  exact close_inv _
                · cases e9 : env.swrInitOk
                  · simp [e1, e2, e3, e4, e5, e6, e7, e8, e9]
                    exact close_inv _
                  · simp [e1, e2, e3, e4, e5, e6, e7, e8, e9]
                    exact ⟨fun hx => by simp at hx, h0, h1⟩

theorem reachable_inv : ∀ s : DecoderState, Reachable s → Inv s := by
  intro s h
  induction h with
  | init => exact ⟨fun hx => by simp [initState] at hx, by simp [initState], by simp [initState]⟩
  | openStep s env rate th _ _ ih => exact openDecoder_inv s env rate th ih
  | closeStep s _ _ => exact close_inv s
  | seekStep s ok swrOk ps _ ih => exact seek_inv s ok swrOk ps ih
  | readStep dfuel ifuel s bufValid n r s' _ hread ih =>
    exact read_inv dfuel ifuel s s' bufValid n r hread ih

theorem splitAtSlash_of_not_mem {l : List Char} (h : '/' ∉ l) :
    splitAtSlash l = none := by
  induction l with
  | nil => rfl
  | cons c cs ih =>
    simp only [List.mem_cons, not_or] at h
    obtain ⟨hc, hcs⟩ := h
    have hcc : ¬(c = '/') := fun he => hc he.symm
    simp only [splitAtSlash, ih hcs]
    rw [if_neg hcc]

theorem splitAtSlash_append {a b : List Char} (h : '/' ∉ a) :
    splitAtSlash (a ++ '/' :: b) = some (a, b) := by
  induction a with
  | nil => simp [splitAtSlash]
  | cons c cs ih =>
    simp only [List.mem_cons, not_or] at h
    obtain ⟨hc, hcs⟩ := h
    have hcc : ¬(c = '/') := fun he => hc he.symm
    simp only [List.cons_append, splitAtSlash, List.append_eq]
    rw [if_neg hcc, ih hcs]

/-- C7: `parseTrackNumber` splits on the first `/`, parsing each side with
`atoi` semantics (0 for malformed or missing numeric text), and returns the
left side as the number and the right side as the total; in particular
`"3/12"` gives `(3, 12)`, `"7"` gives `(7, 0)`, `""` gives `(0, 0)` and
`"abc"` gives `(0, 0)`. -/
theorem parseTrackNumber_spec :
    parseTrackNumber "3/12" = (3, 12) ∧
    parseTrackNumber "7" = (7, 0) ∧
    parseTrackNumber "" = (0, 0) ∧
    parseTrackNumber "abc" = (0, 0) ∧
    (∀ str : String, str.data ≠ [] → '/' ∉ str.data →
      parseTrackNumber str = (atoiModel str.data, 0)) ∧
    (∀ a b : String, '/' ∉ a.data →
      parseTrackNumber (a ++ "/" ++ b) = (atoiModel a.data, atoiModel b.data)) := by
  refine ⟨by decide, by decide, by decide, by decide, ?_, ?_⟩
  · intro str hne hns
    have hsne : ¬(str = "") := by
      intro he
      apply hne
      rw [he]
    have hie : ¬(str.isEmpty = true) := fun hi => hsne ((String.isEmpty_iff str).mp hi)
    unfold parseTrackNumber
    rw [if_neg hie, splitAtSlash_of_not_mem hns]
  · intro a b ha
    have hdata : (a ++ "/" ++ b).data = a.data ++ '/' :: b.data := by
      rw [String.data_append, String.data_append, List.append_assoc]
      rfl
    have hie : ¬((a ++ "/" ++ b).isEmpty = true) := by
      intro hi
      have he := (String.isEmpty_iff _).mp hi
      have hd2 : (a ++ "/" ++ b).data = [] := by
        rw [he]
      rw [hdata] at hd2
      simp at hd2
    unfold parseTrackNumber
    rw [if_neg hie, hdata, splitAtSlash_append ha]

/-- Closed instantiation of the hypothesis-bearing parts of the C7 theorem
at the concrete inputs `"7"` and `"3" ++ "/" ++ "12"`. -/
theorem parseTrackNumber_spec_witness :
    (("7" : String).data ≠ [] ∧ '/' ∉ ("7" : String).data ∧
      parseTrackNumber "7" = (atoiModel ("7" : String).data, 0)) ∧
    ('/' ∉ ("3" : String).data ∧
      parseTrackNumber ("3" ++ "/" ++ "12") =
        (atoiModel ("3" : String).data, atoiModel ("12" : String).data)) :=
  ⟨⟨by decide, by decide,
      parseTrackNumber_spec.2.2.2.2.1 "7" (by decide) (by decide)⟩,
    ⟨by decide, parseTrackNumber_spec.2.2.2.2.2 "3" "12" (by decide)⟩⟩

/-- C8: both metadata extractors use only the first stream flagged as an
attached picture, copy its payload verbatim, classify the MIME type by codec
id (JPEG family and any unrecognised codec give `image/jpeg`, PNG gives
`image/png`, BMP gives `image/bmp`), and the absence of an attached-picture
stream yields empty cover art and an empty MIME string. -/
theorem coverArt_spec :
    (∀ l : List MetaStream, getFileMetadataCover l = getMetadataCover l) ∧
    (∀ l : List MetaStream, (∀ st ∈ l, st.attachedPic = false) →
      getMetadataCover l = ([], "")) ∧
    (∀ (l1 : List MetaStream) (st : MetaStream) (l2 : List MetaStream),
      (∀ x ∈ l1, x.attachedPic = false) → st.attachedPic = true →
      getMetadataCover (l1 ++ st :: l2) = (st.picData, mimeOfCodec st.codecId)) ∧
    mimeOfCodec CodecID.mjpeg = "image/jpeg" ∧
    mimeOfCodec CodecID.jpeg2000 = "image/jpeg" ∧
    mimeOfCodec CodecID.png = "image/png" ∧
    mimeOfCodec CodecID.bmp = "image/bmp" ∧
    (∀ c : CodecID, c ≠ CodecID.png → c ≠ CodecID.bmp →
      mimeOfCodec c = "image/jpeg") := by
  refine ⟨?_, ?_, ?_, by decide, by decide, by decide, by decide, ?_⟩
  · intro l
    induction l with
    | nil => rfl
    | cons st rest ih =>
      simp only [getFileMetadataCover, getMetadataCover]
      rw [ih]
  · intro l hl
    induction l with
    | nil => rfl
    | cons st rest ih =>
      have hst : st.attachedPic = false := hl st (List.mem_cons_self _ _)
      simp only [getMetadataCover, hst]
      simp only [Bool.false_eq_true, if_false]
      exact ih (fun x hx => hl x (List.mem_cons_of_mem _ hx))
  · intro l1 st l2 hl1 hst
    induction l1 with
    | nil =>
      simp only [List.nil_append, getMetadataCover, hst, if_pos]
    | cons x rest ih =>
      have hx : x.attachedPic = false := hl1 x (List.mem_cons_self _ _)
      simp only [List.cons_append, getMetadataCover, hx]
      simp only [Bool.false_eq_true, if_false]
      exact ih (fun y hy => hl1 y (List.mem_cons_of_mem _ hy))
  · intro c h1 h2
    cases c
    · rfl
    · rfl
    · exact absurd rfl h1
    · exact absurd rfl h2
    · rfl

/-- Closed instantiation of the hypothesis-bearing parts of the C8 theorem:
a PNG attached-picture stream after one non-attached stream, and the
no-attached-stream case. -/
theorem coverArt_spec_witness :
    ((∀ st ∈ ([⟨false, CodecID.mjpeg, []⟩] : List MetaStream),
        st.attachedPic = false) ∧
      getMetadataCover [⟨false, CodecID.mjpeg, []⟩] = ([], "")) ∧
    ((∀ x ∈ ([⟨false, CodecID.mjpeg, []⟩] : List MetaStream),
        x.attachedPic = false) ∧
      (⟨true, CodecID.png, [7, 8]⟩ : MetaStream).attachedPic = true ∧
      getMetadataCover ([⟨false, CodecID.mjpeg, []⟩] ++
          (⟨true, CodecID.png, [7, 8]⟩ : MetaStream) :: []) =
        ((⟨true, CodecID.png, [7, 8]⟩ : MetaStream).picData,
          mimeOfCodec (⟨true, CodecID.png, [7, 8]⟩ : MetaStream).codecId)) :=
  ⟨⟨by decide, coverArt_spec.2.1 _ (by decide)⟩,
    ⟨by decide, rfl, coverArt_spec.2.2.1 _ _ [] (by decide) rfl⟩⟩

/-- C1: in every reachable decoder state, `resamplerDrained` implies
`decoderDrained` (so `resamplerDrained` can only become true once
`decoderDrained` already holds), and any `decodeNextFrame` call that turns
`eofSignaled` on does so only once the packet source is exhausted
(`av_read_frame` returned end-of-stream, i.e. no packets remain). -/
theorem drain_order_invariant :
    ∀ s : DecoderState, Reachable s →
      (s.resamplerDrained = true → s.decoderDrained = true) ∧
      (∀ (fuel : Nat) (r : Int) (s' : DecoderState),
        decodeNextFrame fuel s = some (r, s') →
        s.eofSignaled = false → s'.eofSignaled = true → s'.packets = []) := by
  intro s hr
  refine ⟨(reachable_inv s hr).1, ?_⟩
  intro fuel r s' h he ht
  exact decodeNextFrame_eofFlip fuel s s' r h he ht

/-- Closed instantiation of C1 at the freshly constructed decoder state. -/
theorem drain_order_invariant_witness :
    (initState.resamplerDrained = true → initState.decoderDrained = true) ∧
    (∀ (fuel : Nat) (r : Int) (s' : DecoderState),
      decodeNextFrame fuel initState = some (r, s') →
      initState.eofSignaled = false → s'.eofSignaled = true →
      s'.packets = []) :=
  drain_order_invariant initState Reachable.init

/-- C2: for a well-formed stream (in the model: the codec is flushed
whenever EOF has been signaled, the packet source is a finite list, and a
flushed codec reports end-of-decoder-queue after its finitely many queued
frames), the `decodeNextFrame` loop terminates within
`packets.length + 2` iterations, returning a positive sample count, zero
(end of stream) or a negative error code. -/
theorem decode_loop_terminates :
    ∀ s : DecoderState,
      (s.eofSignaled = true → s.codec.flushed = true) →
      ∃ r s', decodeNextFrame (s.packets.length + 2) s = some (r, s') ∧
        (0 < r ∨ r = 0 ∨ r < 0) := by
  intro s hT
  have hB : decodeFuelBound s ≤ s.packets.length + 2 := by
    simp only [decodeFuelBound]
    cases s.eofSignaled
    all_goals simp
  obtain ⟨⟨r, s'⟩, h⟩ := decodeNextFrame_total (s.packets.length + 2) s hT hB
  exact ⟨r, s', h, by omega⟩

/-- Closed instantiation of C2 at the freshly constructed decoder state. -/
theorem decode_loop_terminates_witness :
    (initState.eofSignaled = true → initState.codec.flushed = true) ∧
    ∃ r s', decodeNextFrame (initState.packets.length + 2) initState =
        some (r, s') ∧ (0 < r ∨ r = 0 ∨ r < 0) :=
  ⟨by decide, decode_loop_terminates initState (by decide)⟩

/-- An open decoder state with a latency-carrying resampler (a 100-sample
delay-line target, as any ordinary 48kHz to 44.1kHz session has), one
pending decoded frame of 10 samples and one packet still unread: the
session is healthy and nowhere near end of stream. -/
def latentState : DecoderState :=
  { initState with
    formatOpen := true
    sampleBufferSize := 88200
    audioStreamIndex := 0
    codec := { ready := [{ nb_samples := 10 }], tail := [], flushed := false,
               broken := false }
    swr := { holdTarget := 100, delay := 0, broken := false }
    packets := [ReadItem.pkt { stream_index := 0, bad := false, frames := [{ nb_samples := 10 }] }] }

/-- The state after the spurious read: the frame was consumed and its 10
samples absorbed into the resampler delay line, zero samples were staged,
and no flag was set. -/
def latentAfter : DecoderState :=
  { latentState with
    codec := { ready := [], tail := [], flushed := false, broken := false }
    swr := { holdTarget := 100, delay := 10, broken := false }
    samplesInBuffer := 0
    bufferReadPos := 0 }

/-- C3 (evaluation at the failing input): on `latentState` — open, healthy,
not exhausted — `read` with `n = 4` returns 0: `swr_convert` absorbs the
10-sample frame into its delay line and reports 0 output samples,
`decodeNextFrame` stores `samplesInBuffer = 0` and returns 0, and `read`
treats that 0 as end of stream and stops.  The result is a spurious
mid-stream zero read: fewer samples than requested although `eofSignaled`,
`decoderDrained` and `resamplerDrained` are all still false and a packet
remains unread — contradicting the claim that `r < n` happens only at
genuine end-of-file. -/
theorem read_spurious_zero_read :
    (read (latentState.packets.length + 2) 5 latentState true 4).map
        (fun rs => (rs.1, rs.2.eofSignaled, rs.2.decoderDrained,
          rs.2.resamplerDrained, rs.2.packets.length)) =
      some (0, false, false, false, 1) := by
  have hd : decodeNextFrame 3 latentState = some (0, latentAfter) := by
    rw [show (3 : Nat) = 2 + 1 from rfl, decodeNextFrame]
    rfl
  have hr : readLoop 3 5 latentState 4 0 = some (0, latentAfter) := by
    rw [show (5 : Nat) = 4 + 1 from rfl, readLoop, hd]
    rfl
  show (readLoop 3 5 latentState 4 0).map
      (fun rs => (rs.1, rs.2.eofSignaled, rs.2.decoderDrained,
        rs.2.resamplerDrained, rs.2.packets.length)) =
    some (0, false, false, false, 1)
  rw [hr]
  rfl

/-- C4: when the underlying `av_seek_frame` fails (and also when the session
is closed), `seek` returns `false` and the state — codec, resampler,
staging-buffer counters, drain flags, everything — is exactly unchanged. -/
theorem seek_fail_unchanged :
    ∀ (s : DecoderState) (swrInitOk : Bool) (ps : List ReadItem),
      seek s false swrInitOk ps = (false, s) := by
  intro s swrInitOk ps
  unfold seek
  split
  · rfl
  · rfl

/-- C5: in every reachable decoder state the staging-buffer cursor satisfies
`0 ≤ bufferReadPos ≤ samplesInBuffer`; moreover when the buffer is empty
(`bufferReadPos = samplesInBuffer`) the read loop refills it via
`decodeNextFrame` before copying anything — if the refill reports end of
stream or an error, the loop returns with no additional samples copied. -/
theorem staging_buffer_invariant :
    ∀ s : DecoderState, Reachable s →
      (0 ≤ s.bufferReadPos ∧ s.bufferReadPos ≤ s.samplesInBuffer) ∧
      (∀ (dfuel ifuel : Nat) (n total d : Int) (s1 : DecoderState),
        total < n → s.bufferReadPos ≥ s.samplesInBuffer →
        decodeNextFrame dfuel s = some (d, s1) → d ≤ 0 →
        readLoop dfuel (ifuel + 1) s n total = some (total, s1)) := by
  intro s hr
  obtain ⟨-, h2, h3⟩ := reachable_inv s hr
  refine ⟨⟨h2, h3⟩, ?_⟩
  intro dfuel ifuel n total d s1 hlt hempty hdec hdle
  simp only [readLoop]
  rw [if_pos hlt, if_pos hempty, hdec]
  simp only []
  rw [if_pos hdle]

/-- Closed instantiation of C5 at the freshly constructed decoder state. -/
theorem staging_buffer_invariant_witness :
    (0 ≤ initState.bufferReadPos ∧
      initState.bufferReadPos ≤ initState.samplesInBuffer) ∧
    (∀ (dfuel ifuel : Nat) (n total d : Int) (s1 : DecoderState),
      total < n → initState.bufferReadPos ≥ initState.samplesInBuffer →
      decodeNextFrame dfuel initState = some (d, s1) → d ≤ 0 →
      readLoop dfuel (ifuel + 1) initState n total = some (total, s1)) :=
  staging_buffer_invariant initState Reachable.init

/-- C6: whenever `open` fails, starting from a closed session, every
resource acquired up to the failing step has been released again: the
result state has no format context, no codec context, no resampler, no
sample buffer, and `isOpen` reports `false`. -/
theorem open_failure_fully_closed :
    ∀ (s : DecoderState) (env : OpenEnv) (rate threads : Int)
      (s2 : DecoderState),
      s.formatOpen = false → s.codecAlloc = false → s.swrAlloc = false →
      s.bufAlloc = false →
      openDecoder s env rate threads = (false, s2) →
      isOpen s2 = false ∧ s2.formatOpen = false ∧ s2.codecAlloc = false ∧
      s2.swrAlloc = false ∧ s2.bufAlloc = false := by
  intro s env rate threads s2 hfo hca hsa hba h
  simp only [openDecoder, initResampler] at h
  cases e1 : env.openOk <;> rw [e1] at h
  next =>
    simp only [Bool.not_false, if_true, Prod.mk.injEq, true_and] at h
    subst h
    exact ⟨rfl, rfl, hca, hsa, hba⟩
  next =>
  simp only [Bool.not_true, Bool.false_eq_true, if_false] at h
  cases e2 : env.findStreamInfoOk <;> rw [e2] at h
  next =>
    simp only [Bool.not_false, if_true, Prod.mk.injEq, true_and] at h
    subst h
    exact ⟨rfl, rfl, hca, hsa, hba⟩
  next =>
  simp only [Bool.not_true, Bool.false_eq_true, if_false] at h
  by_cases e3 : findAudioIndex env.streamIsAudio 0 = -1
  · rw [if_pos e3] at h
    simp only [Prod.mk.injEq, true_and] at h
    subst h
    exact ⟨rfl, rfl, hca, hsa, hba⟩
  · rw [if_neg e3] at h
    cases e4 : env.decoderFound <;> rw [e4] at h
    next =>
      simp only [Bool.not_false, if_true, Prod.mk.injEq, true_and] at h
      subst h
      exact ⟨rfl, rfl, hca, hsa, hba⟩
    next =>
    simp only [Bool.not_true, Bool.false_eq_true, if_false] at h
    cases e5 : env.ctxAllocOk <;> rw [e5] at h
    next =>
      simp only [Bool.not_false, if_true, Prod.mk.injEq, true_and] at h
      subst h
      exact ⟨rfl, rfl, hca, hsa, hba⟩
    next =>
    simp only [Bool.not_true, Bool.false_eq_true, if_false] at h
    cases e6 : env.paramsOk <;> rw [e6] at h
    next =>
      simp only [Bool.not_false, if_true, Prod.mk.injEq, true_and] at h
      subst h
      exact ⟨rfl, rfl, rfl, hsa, hba⟩
    next =>
    simp only [Bool.not_true, Bool.false_eq_true, if_false] at h
    cases e7 : env.codecOpenOk <;> rw [e7] at h
    next =>
      simp only [Bool.not_false, if_true, Prod.mk.injEq, true_and] at h
      subst h
      exact ⟨rfl, rfl, rfl, hsa, hba⟩
    next =>
    simp only [Bool.not_true, Bool.false_eq_true, if_false] at h
    cases e8 : env.swrAllocOk <;> rw [e8] at h
    next =>
      simp only [Bool.not_false, if_true, Prod.mk.injEq, true_and] at h
      subst h
      exact ⟨rfl, rfl, rfl, rfl, rfl⟩
    next =>
    simp only [Bool.not_true, Bool.false_eq_true, if_false] at h
    cases e9 : env.swrInitOk <;> rw [e9] at h
    next =>
      simp only [Bool.not_false, if_true, Prod.mk.injEq, true_and] at h
      subst h
      exact ⟨rfl, rfl, rfl, rfl, rfl⟩
    next =>
    simp only [Bool.not_true, Bool.false_eq_true, if_false, Prod.mk.injEq] at h
    exact absurd h.1 (by simp)

/-- An `open` environment whose very first step (`avformat_open_input`)
fails, used to instantiate C6. -/
def failEnv : OpenEnv :=
  { openOk := false, findStreamInfoOk := true, streamIsAudio := [true],
    decoderFound := true, ctxAllocOk := true, paramsOk := true,
    codecOpenOk := true, swrAllocOk := true, swrInitOk := true,
    swrHoldTarget := 0, packets := [],
    codec0 := { ready := [], tail := [], flushed := false, broken := false } }

/-- Closed instantiation of C6: opening with `failEnv` from the fresh state
fails and leaves everything closed. -/
theorem open_failure_fully_closed_witness :
    initState.formatOpen = false ∧ initState.codecAlloc = false ∧
    initState.swrAlloc = false ∧ initState.bufAlloc = false ∧
    openDecoder initState failEnv 44100 0 =
      (false, (openDecoder initState failEnv 44100 0).2) ∧
    (isOpen (openDecoder initState failEnv 44100 0).2 = false ∧
      (openDecoder initState failEnv 44100 0).2.formatOpen = false ∧
      (openDecoder initState failEnv 44100 0).2.codecAlloc = false ∧
      (openDecoder initState failEnv 44100 0).2.swrAlloc = false ∧
      (openDecoder initState failEnv 44100 0).2.bufAlloc = false) :=
  ⟨rfl, rfl, rfl, rfl, by decide,
    open_failure_fully_closed initState failEnv 44100 0
      (openDecoder initState failEnv 44100 0).2 rfl rfl rfl rfl (by decide)⟩

/-- C9: `close` is idempotent — closing an already-closed session is safe
and a no-op — and the closed state has all handles released, the stream
index reset, the staging-buffer counters zeroed and all three drain flags
cleared. -/
theorem close_idempotent :
    ∀ s : DecoderState,
      close (close s) = close s ∧
      isOpen (close s) = false ∧
      (close s).codecAlloc = false ∧ (close s).swrAlloc = false ∧
      (close s).bufAlloc = false ∧ (close s).audioStreamIndex = -1 ∧
      (close s).samplesInBuffer = 0 ∧ (close s).bufferReadPos = 0 ∧
      (close s).eofSignaled = false ∧ (close s).decoderDrained = false ∧
      (close s).resamplerDrained = false :=
  fun _ => ⟨rfl, rfl, rfl, rfl, rfl, rfl, rfl, rfl, rfl, rfl, rfl⟩

/-- C10: `read` on a closed session (no format context) or with a null
output buffer returns 0 and leaves the session state exactly unchanged. -/
theorem read_closed_or_nullbuf :
    ∀ (dfuel ifuel : Nat) (s : DecoderState) (bufValid : Bool) (n : Int),
      s.formatOpen = false ∨ bufValid = false →
      read dfuel ifuel s bufValid n = some (0, s) := by
  intro dfuel ifuel s bufValid n h
  unfold read
  rcases h with h | h <;> simp [h]

/-- Closed instantiation of C10: reading 5 samples from the fresh (closed)
decoder state returns 0 and the unchanged state. -/
theorem read_closed_or_nullbuf_witness :
    (initState.formatOpen = false ∨ true = false) ∧
    read 1 1 initState true 5 = some (0, initState) :=
  ⟨Or.inl rfl, read_closed_or_nullbuf 1 1 initState true 5 (Or.inl rfl)⟩

end FFmpegNapi
